import Mathlib

/-!
Verification of the PoPOS genetic-algorithm port scanner core.

The Python modules `config.py`, `ga.py`, `packet.py` and `replay.py` are
shallowly embedded below: configuration values become constants, the
instruction tuples become an inductive type, the stateful evaluation and
replay loops become folds over explicit state records, and all randomness
is abstracted into oracle functions supplied as arguments (each oracle
models one stream of `random` draws, with in-range results by
construction).  Floating point arithmetic of the source is modelled by
exact rationals.
-/

namespace Popos

/-! ## config.py -/

def DEFAULT_PORT : Int := 80

def DEFAULT_SRC_PORT : Int := 12345

def DELAY : ℚ := 1/2

def SOURCE_IP : String := "192.168.56.101"

def DEFAULT_DST_IP : String := "192.168.56.101"

def TCP_FLAGS : List String := ["S", "A", "F", "R", "P", "SA", "FA", "RA", "PA", ""]

def ELITE_PERCENT : ℚ := 1/20

def DEFAULT_MUTATION_RATE : ℚ := 1/2

def PAGE_COUNT : ℕ := 20

def PAGE_SIZE : ℕ := 5

def TOURNAMENT_SIZE : ℕ := 4

/-! ## The instruction vocabulary (the `(kind, parameter)` tuples of `ga.py`) -/

/-- One genome gene: a `(kind, parameter)` tuple as produced by
`Individual.random_instructions` and the variation operators. -/
inductive Instruction where
  | set_flags (f : String)
  | set_ips (src dst : String)
  | set_ports (src dst : Int)
  | set_ttl (t : Int)
  | set_window_size (w : Int)
  | set_payload_length (l : Int)
  | set_ip_flags (f : String)
  | set_delay (d : ℚ)
  | send_packet
  deriving DecidableEq, Repr, Inhabited

/-- The Python string tag of an instruction (first tuple component). -/
def Instruction.kind : Instruction → String
  | .set_flags _ => "set_flags"
  | .set_ips _ _ => "set_ips"
  | .set_ports _ _ => "set_ports"
  | .set_ttl _ => "set_ttl"
  | .set_window_size _ => "set_window_size"
  | .set_payload_length _ => "set_payload_length"
  | .set_ip_flags _ => "set_ip_flags"
  | .set_delay _ => "set_delay"
  | .send_packet => "send_packet"

/-! ## packet.py: the `Packet` field state -/

/-- The mutable fields of `packet.Packet`.  Fields that `__init__` leaves
unset (`ttl`, `window_size`, `payload_length`, `ip_flags`) are `Option`s,
matching the `getattr(..., default)` accesses of the source. -/
structure Packet where
  src_ip : String
  dst_ip : String
  src_port : Int
  dst_port : Int
  delay : ℚ
  flags : String
  ttl : Option Int
  window_size : Option Int
  payload_length : Option Int
  ip_flags : Option String
  deriving DecidableEq, Repr

/-- `Packet.__init__`. -/
def Packet.init : Packet :=
  { src_ip := SOURCE_IP
    dst_ip := DEFAULT_DST_IP
    src_port := DEFAULT_SRC_PORT
    dst_port := DEFAULT_PORT
    delay := DELAY
    flags := "S"
    ttl := none
    window_size := none
    payload_length := none
    ip_flags := none }

/-! ## ga.py: fitness evaluation -/

/-- The loop state of `evaluate_fitness`: the packet being mutated, the
four morphology-observation lists, the sent-probe counter, and a cursor
into the abstract send oracle (one slot per `send_packet` attempt). -/
structure EvalState where
  packet : Packet
  ttl_values : List Int
  payload_lengths : List Int
  window_sizes : List Int
  delays : List ℚ
  sent_packets : ℕ
  attempts : ℕ
  deriving DecidableEq, Repr

/-- Initial state of the `evaluate_fitness` loop: a fresh `Packet()`,
empty observation lists, zero probes sent. -/
def initEvalState : EvalState :=
  { packet := Packet.init
    ttl_values := []
    payload_lengths := []
    window_sizes := []
    delays := []
    sent_packets := 0
    attempts := 0 }

/-- One iteration of the dispatch loop in `evaluate_fitness`.  `sendOk`
is the Transport: `sendOk n = false` means the `n`-th `send_packet`
attempt raises, which the source catches (`except ... continue`) without
incrementing `sent_packets`. -/
def evalStep (sendOk : ℕ → Bool) (s : EvalState) : Instruction → EvalState
  | .set_flags f => { s with packet := { s.packet with flags := f } }
  | .set_ips a b => { s with packet := { s.packet with src_ip := a, dst_ip := b } }
  | .set_ports a b => { s with packet := { s.packet with src_port := a, dst_port := b } }
  | .set_ttl t =>
      { s with packet := { s.packet with ttl := some t }, ttl_values := s.ttl_values ++ [t] }
  | .set_window_size w =>
      { s with packet := { s.packet with window_size := some w },
               window_sizes := s.window_sizes ++ [w] }
  | .set_payload_length l =>
      { s with packet := { s.packet with payload_length := some l },
               payload_lengths := s.payload_lengths ++ [l] }
  | .set_ip_flags f => { s with packet := { s.packet with ip_flags := some f } }
  | .set_delay d =>
      { s with packet := { s.packet with delay := d }, delays := s.delays ++ [d] }
  | .send_packet =>
      if sendOk s.attempts then
        { s with sent_packets := s.sent_packets + 1, attempts := s.attempts + 1 }
      else
        { s with attempts := s.attempts + 1 }

/-- The whole instruction loop of `evaluate_fitness`. -/
def runEval (sendOk : ℕ → Bool) (s : EvalState) (instrs : List Instruction) : EvalState :=
  instrs.foldl (evalStep sendOk) s

/-- `sum(l)/len(l) if l else d`: the average-with-default idiom of
`evaluate_fitness`. -/
def listAvg (l : List ℚ) (d : ℚ) : ℚ :=
  if l.isEmpty then d else l.sum / l.length

/-- `[val for instr, val in individual.instructions if instr == "set_flags"]`. -/
def flagHist (instrs : List Instruction) : List String :=
  instrs.filterMap fun i =>
    match i with
    | .set_flags f => some f
    | _ => none

/-- The morphology stealth bonus of `evaluate_fitness`, computed from
the final loop state. -/
def morphBonus (st : EvalState) : ℚ :=
  (if 64 < listAvg (st.ttl_values.map (Int.cast)) 0 then (1/20 : ℚ) else 0) +
  (if 200 < listAvg (st.payload_lengths.map (Int.cast)) 0 then (1/20 : ℚ) else 0) +
  (if listAvg (st.window_sizes.map (Int.cast)) 65535 < 5000 then (1/20 : ℚ) else 0) +
  (if (1/2 : ℚ) ≤ listAvg st.delays 0 then (1/20 : ℚ) else 0)

/-- The per-occurrence flag penalty table of `evaluate_fitness`. -/
def flagPenalty (instrs : List Instruction) : ℚ :=
  ((flagHist instrs).count "" : ℚ) * (1/100) +
  ((flagHist instrs).count "F" : ℚ) * (1/100) +
  ((flagHist instrs).count "SF" : ℚ) * (1/50) +
  ((flagHist instrs).count "RA" : ℚ) * (1/50) +
  ((flagHist instrs).count "SA" : ℚ) * (1/50) +
  ((flagHist instrs).count "FA" : ℚ) * (1/50) +
  ((flagHist instrs).count "PA" : ℚ) * (1/100)

/-- `0.05 * len(set(flag_hist)) / len(flag_hist)`, `0` when no flag
instruction was executed. -/
def entropyBonus (instrs : List Instruction) : ℚ :=
  (1/20) *
    (if (flagHist instrs).isEmpty then 0
     else ((flagHist instrs).dedup.length : ℚ) / ((flagHist instrs).length : ℚ))

/-- `ga.evaluate_fitness`, with the Snort alert delta (`alerts_after -
alerts_before`) and the Transport outcomes abstracted as inputs. -/
def evaluate_fitness (instrs : List Instruction) (sendOk : ℕ → Bool) (alerts : Int) : ℚ :=
  let st := runEval sendOk initEvalState instrs
  if st.sent_packets = 0 then 0
  else
    max (min ((1 - (alerts : ℚ) / (st.sent_packets : ℚ)) + morphBonus st +
              entropyBonus instrs - flagPenalty instrs) 1) 0

/-! ## ga.py: genome generation and variation operators -/

/-- The random draws consumed by `Individual.random_instructions`, one
stream per kind of draw (`random.choice` draws are modelled as an index
reduced into range with `%`). -/
structure GenOracle where
  flagOf : ℕ → ℕ
  octet : ℕ → ℕ
  sport : ℕ → ℕ
  dport : ℕ → ℕ
  ttlOf : ℕ → ℕ
  windowOf : ℕ → ℕ
  payloadOf : ℕ → ℕ
  ipflagOf : ℕ → ℕ
  delayOf : ℕ → ℚ
  mix : ℕ → ℕ
  shuffleOf : ℕ → ℕ

/-- The eight safe-default instructions that open
`Individual.random_instructions`. -/
def baseInstructions (o : GenOracle) (target_ip : String) (lo hi : ℕ) : List Instruction :=
  [ Instruction.set_flags (TCP_FLAGS.getD (o.flagOf 0 % 10) ""),
    Instruction.set_ips ("192.168.1." ++ toString (1 + o.octet 0 % 254)) target_ip,
    Instruction.set_ports ((1024 + o.sport 0 % 64512 : ℕ) : Int) ((lo + o.dport 0 % (hi - lo + 1) : ℕ) : Int),
    Instruction.set_ttl ((32 + o.ttlOf 0 % 97 : ℕ) : Int),
    Instruction.set_window_size ((o.windowOf 0 % 65536 : ℕ) : Int),
    Instruction.set_payload_length ((o.payloadOf 0 % 1501 : ℕ) : Int),
    Instruction.set_ip_flags (["DF", "MF", ""].getD (o.ipflagOf 0 % 3) ""),
    Instruction.set_delay (o.delayOf 0) ]

/-- One draw of the nine-way `random.choice` filling the remainder of a
fresh genome (eight setters plus `("send_packet", None)`). -/
def mixInstruction (o : GenOracle) (target_ip : String) (lo hi : ℕ) (k : ℕ) : Instruction :=
  match o.mix k % 9 with
  | 0 => Instruction.set_flags (TCP_FLAGS.getD (o.flagOf (k + 1) % 10) "")
  | 1 => Instruction.set_ips ("192.168.1." ++ toString (1 + o.octet (k + 1) % 254)) target_ip
  | 2 => Instruction.set_ports ((1024 + o.sport (k + 1) % 64512 : ℕ) : Int)
           ((lo + o.dport (k + 1) % (hi - lo + 1) : ℕ) : Int)
  | 3 => Instruction.set_ttl ((32 + o.ttlOf (k + 1) % 97 : ℕ) : Int)
  | 4 => Instruction.set_window_size ((o.windowOf (k + 1) % 65536 : ℕ) : Int)
  | 5 => Instruction.set_payload_length ((o.payloadOf (k + 1) % 1501 : ℕ) : Int)
  | 6 => Instruction.set_ip_flags (["DF", "MF", ""].getD (o.ipflagOf (k + 1) % 3) "")
  | 7 => Instruction.set_delay (o.delayOf (k + 1))
  | _ => Instruction.send_packet

/-- `x[i], x[j] = x[j], x[i]`: exchange two positions of a list. -/
def listSwap [Inhabited α] (l : List α) (i j : ℕ) : List α :=
  (l.set i (l.getD j default)).set j (l.getD i default)

/-- The Fisher-Yates loop of `random.shuffle`: `for i in
reversed(range(1, len(x)))`, swap position `i` with a drawn position
`j ≤ i`.  The first argument is the remaining number of loop
iterations (the current `i`). -/
def fyAux [Inhabited α] (idx : ℕ → ℕ) : ℕ → List α → List α
  | 0, l => l
  | Nat.succ i, l => fyAux idx i (listSwap l (i + 1) (idx (i + 1) % (i + 2)))

/-- `random.shuffle`. -/
def pyShuffle [Inhabited α] (idx : ℕ → ℕ) (l : List α) : List α :=
  fyAux idx (l.length - 1) l

/-- `Individual.random_instructions`: eight safe defaults, then a
random mix up to `PAGE_COUNT * PAGE_SIZE` genes, then a shuffle. -/
def random_instructions (o : GenOracle) (target_ip : String) (lo hi : ℕ) : List Instruction :=
  pyShuffle o.shuffleOf
    (baseInstructions o target_ip lo hi ++
      (List.range (PAGE_COUNT * PAGE_SIZE - 8)).map (mixInstruction o target_ip lo hi))

/-- Python slice read `xs[s:e]` (non-negative indices, clamped). -/
def pySlice (xs : List α) (s e : ℕ) : List α :=
  (xs.take e).drop s

/-- Python slice assignment `xs[s:e] = ys` (non-negative indices,
clamped). -/
def pySliceAssign (xs : List α) (s e : ℕ) (ys : List α) : List α :=
  xs.take s ++ ys ++ xs.drop e

/-- The page size hardcoded in `ga.crossover` (`page_size = 6`,
despite the comment claiming it comes from the config, whose
`PAGE_SIZE` is 5). -/
def crossoverPageSize : ℕ := 6

/-- `ga.crossover`: deep-copy both parents and swap the one page
`[cp * 6, cp * 6 + 6)` between the copies.  `cp` is the drawn
`crossover_point`, chosen by the source as
`random.randint(0, len(parent1) // 6 - 1)`. -/
def crossover (p1 p2 : List Instruction) (cp : ℕ) : List Instruction × List Instruction :=
  let s := cp * crossoverPageSize
  let e := s + crossoverPageSize
  (pySliceAssign p1 s e (pySlice p2 s e), pySliceAssign p2 s e (pySlice p1 s e))

/-- The random draws consumed by `ga.mutate`. -/
structure MutOracle where
  rand : ℕ → ℚ
  choice : ℕ → ℕ
  flagOf : ℕ → ℕ
  octet : ℕ → ℕ
  sport : ℕ → ℕ
  dport : ℕ → ℕ

/-- `mutation_prob = config.DEFAULT_MUTATION_RATE * (1 - current_gen / max_gen)`. -/
def mutationProb (g G : ℕ) : ℚ :=
  DEFAULT_MUTATION_RATE * (1 - (g : ℚ) / (G : ℚ))

/-- The four-way `random.choice` of `ga.mutate`: a fresh instruction
drawn from the restricted vocabulary `{set_flags, set_ips, set_ports,
send_packet}`. -/
def mutReplacement (o : MutOracle) (target_ip : String) (lo hi : ℕ) (i : ℕ) : Instruction :=
  if o.choice i % 4 = 0 then Instruction.set_flags (TCP_FLAGS.getD (o.flagOf i % 10) "")
  else if o.choice i % 4 = 1 then
    Instruction.set_ips ("192.168.1." ++ toString (1 + o.octet i % 254)) target_ip
  else if o.choice i % 4 = 2 then
    Instruction.set_ports ((1024 + o.sport i % 64512 : ℕ) : Int)
      ((lo + o.dport i % (hi - lo + 1) : ℕ) : Int)
  else Instruction.send_packet

/-- `ga.mutate`: each gene position independently is replaced with a
fresh restricted-vocabulary instruction when its `random.random()` draw
falls below the decayed mutation probability. -/
def mutate (o : MutOracle) (target_ip : String) (lo hi : ℕ) (instrs : List Instruction)
    (g G : ℕ) : List Instruction :=
  instrs.mapIdx fun i ins =>
    if o.rand i < mutationProb g G then mutReplacement o target_ip lo hi i else ins

/-- One application of a variation operator, as used inside
`evolve_population`: crossover against another parent (keeping one of
the two children), mutation, or gene swap. -/
inductive GAOp where
  | cross (other : List Instruction) (cp : ℕ) (first : Bool)
  | mutOp (o : MutOracle) (target_ip : String) (lo hi g G : ℕ)
  | swp (i j : ℕ)

/-- Apply one variation operator to a genome. -/
def applyOp (gnm : List Instruction) : GAOp → List Instruction
  | GAOp.cross other cp first =>
      if first then (crossover gnm other cp).1 else (crossover other gnm cp).2
  | GAOp.mutOp o tip lo hi g G => mutate o tip lo hi gnm g G
  | GAOp.swp i j => listSwap gnm i j

/-- Apply a sequence of variation operators. -/
def applyOps (ops : List GAOp) (gnm : List Instruction) : List Instruction :=
  ops.foldl applyOp gnm

/-- The randomness ranges `evolve_population` feeds each operator: the
crossover point is `randint(0, len // 6 - 1)` over a length-100 other
parent, and the swap indices are a 2-element `random.sample` of the
gene positions. -/
def ValidOp : GAOp → Prop
  | GAOp.cross other cp _ =>
      other.length = PAGE_COUNT * PAGE_SIZE ∧ cp < (PAGE_COUNT * PAGE_SIZE) / crossoverPageSize
  | GAOp.mutOp _ _ _ _ _ _ => True
  | GAOp.swp i j => i < PAGE_COUNT * PAGE_SIZE ∧ j < PAGE_COUNT * PAGE_SIZE ∧ i ≠ j

/-! ## ga.py: tournament selection and elitism

`sorted(..., key=lambda ind: ind.fitness, reverse=True)` is a stable
descending sort.  A stable descending sort is extensionally the unique
sort of the index-tagged list by the total, antisymmetric order
"higher fitness first, earlier position first on ties", which is how it
is embedded here: individuals are reduced to their fitness values
(nothing else of an individual is read by these functions), tagged with
their positions, and sorted by `tOrd`. -/

/-- "Comes no later in the stable descending sort": higher fitness
first, ties broken by the earlier original position. -/
def tOrd (a b : ℕ × ℚ) : Prop :=
  b.2 < a.2 ∨ (a.2 = b.2 ∧ a.1 ≤ b.1)

instance : DecidableRel tOrd := fun a b => by
  unfold tOrd; infer_instance

instance : IsTotal (ℕ × ℚ) tOrd where
  total a b := by
    rcases lt_trichotomy a.2 b.2 with h | h | h
    · exact Or.inr (Or.inl h)
    · rcases le_total a.1 b.1 with h1 | h1
      · exact Or.inl (Or.inr ⟨h, h1⟩)
      · exact Or.inr (Or.inr ⟨h.symm, h1⟩)
    · exact Or.inl (Or.inl h)

instance : IsTrans (ℕ × ℚ) tOrd where
  trans a b c hab hbc := by
    rcases hab with h1 | ⟨e1, l1⟩
    · rcases hbc with h2 | ⟨e2, l2⟩
      · exact Or.inl (h2.trans h1)
      · exact Or.inl (e2 ▸ h1)
    · rcases hbc with h2 | ⟨e2, l2⟩
      · exact Or.inl (by rw [e1]; exact h2)
      · exact Or.inr ⟨e1.trans e2, l1.trans l2⟩

/-- The stable descending-by-fitness sort of `ga.py`. -/
def sortByFitness (pop : List ℚ) : List ℚ :=
  (List.insertionSort tOrd pop.enum).map Prod.snd

/-- `competitors = random.sample(population, tournament_size)`: the
drawn sample, as the list of fitness values at the drawn (distinct)
positions. -/
def competitors (pop : List ℚ) (sample : List ℕ) : List ℚ :=
  sample.map fun i => pop.getD i 0

/-- `ga.tournament_selection`: sort the sampled competitors descending
by fitness and return the top two.  `none` models the `ValueError` of
`random.sample` when the sample cannot be drawn (in particular when
`tournament_size` exceeds the population size) and the `IndexError`
when fewer than two competitors exist. -/
def tournament_selection (pop : List ℚ) (k : ℕ) (sample : List ℕ) : Option (ℚ × ℚ) :=
  if 2 ≤ k ∧ k ≤ pop.length ∧ sample.length = k ∧ sample.Nodup ∧ ∀ i ∈ sample, i < pop.length
  then
    match List.insertionSort tOrd (competitors pop sample).enum with
    | a :: b :: _ => some (a.2, b.2)
    | _ => none
  else none

/-- `elite_count = max(1, int(len(population.individuals) *
config.ELITE_PERCENT))` from `evolve_population` (`int` truncates, i.e.
floor on non-negative values). -/
def elite_count (n : ℕ) : ℕ :=
  max 1 (Nat.floor ((n : ℚ) * ELITE_PERCENT))

/-- `elites = sorted(population.individuals, key=lambda i: i.fitness,
reverse=True)[:elite_count]`. -/
def elites (pop : List ℚ) : List ℚ :=
  (sortByFitness pop).take (elite_count pop.length)

/-- The individuals not carried over as elites (the rest of the sorted
population). -/
def nonElites (pop : List ℚ) : List ℚ :=
  (sortByFitness pop).drop (elite_count pop.length)

/-! ## The persisted genome file format

`save_individual` writes `f"{instr}\n"`, i.e. the Python `repr` of each
`(kind, parameter)` tuple, one per line; `replay.load_individual` reads
the lines back with `ast.literal_eval`.  Python literal values are
embedded as `PyVal` (floats as exact rationals), `repr` as a printer and
`literal_eval` as a fuel-indexed recursive-descent parser over the
literal grammar the files use (strings, ints, floats, `None`,
tuples). -/

/-- A Python literal value as written and read by the genome file format. -/
inductive PyVal where
  | pstr (s : String)
  | pint (n : ℤ)
  | pfloat (q : ℚ)
  | pnone
  | ptup (l : List PyVal)

/-- The single-quote character `'` (written numerically). -/
def quoteChar : Char := Char.ofNat 39

/-- Strings Python `repr` prints literally inside single quotes:
printable ASCII with no quote and no backslash (anything else would be
escaped by `repr`, which the printer below does not model). -/
def GoodStr (s : String) : Prop :=
  ∀ c ∈ s.data, 32 ≤ c.toNat ∧ c.toNat ≤ 126 ∧ c ≠ quoteChar ∧ c ≠ '\\'

/-- The decimal digits of a natural number, most significant first. -/
def natDigits (n : ℕ) : List Char :=
  if h : n < 10 then [Char.ofNat (48 + n)]
  else natDigits (n / 10) ++ [Char.ofNat (48 + n % 10)]
termination_by n
decreasing_by exact Nat.div_lt_self (by omega) (by omega)

/-- Python `repr` of a float holding an exact two-decimal value: the
integer part, a dot, and the hundredths with a trailing zero stripped
but at least one digit kept (`0.5`, `1.0`, `0.57`, `0.05`).  Defined for
`q` with `q.den ∣ 100`; `n` below is the value in hundredths. -/
def twoDecRepr (q : ℚ) : List Char :=
  let n : ℕ := q.num.toNat * (100 / q.den)
  natDigits (n / 100) ++ '.' ::
    (if n % 100 % 10 = 0 then [Char.ofNat (48 + n % 100 / 10)]
     else [Char.ofNat (48 + n % 100 / 10), Char.ofNat (48 + n % 100 % 10)])

mutual

/-- Python `repr` of a literal value, as a character list. -/
def pyReprChars : PyVal → List Char
  | .pstr s => quoteChar :: s.data ++ [quoteChar]
  | .pint n => if n < 0 then '-' :: natDigits n.natAbs else natDigits n.natAbs
  | .pfloat q => if q < 0 then '-' :: twoDecRepr (-q) else twoDecRepr q
  | .pnone => 'N' :: 'o' :: 'n' :: 'e' :: []
  | .ptup [x] => '(' :: pyReprChars x ++ [',', ')']
  | .ptup l => '(' :: reprElems l ++ [')']
termination_by v => sizeOf v
decreasing_by all_goals (simp_wf; try omega)

/-- The `", "`-separated element list inside a tuple `repr`. -/
def reprElems : List PyVal → List Char
  | [] => []
  | [v] => pyReprChars v
  | v :: vs => pyReprChars v ++ ',' :: ' ' :: reprElems vs
termination_by l => sizeOf l
decreasing_by all_goals (simp_wf; try omega)

end

/-- The value of a digit run read left to right starting from `acc`. -/
def foldDigits (acc : ℕ) (ds : List Char) : ℕ :=
  ds.foldl (fun a c => 10 * a + (c.toNat - 48)) acc

/-- The continuation after a printed number must not start with a digit
or a dot (in the file grammar it is `", "`, `")"` or the end of the
line). -/
def numSafe (cs : List Char) : Prop :=
  ∀ c, cs.head? = some c → c.isDigit = false ∧ c ≠ '.'

instance : DecidablePred GoodStr := fun s => by
  unfold GoodStr
  infer_instance

/-- Consume a maximal run of decimal digits, returning the value read,
the number of digits consumed and the remaining input. -/
def grabDigits : List Char → ℕ → ℕ → ℕ × ℕ × List Char
  | [], acc, cnt => (acc, cnt, [])
  | c :: cs, acc, cnt =>
      if c.isDigit then grabDigits cs (10 * acc + (c.toNat - 48)) (cnt + 1)
      else (acc, cnt, c :: cs)

/-- Consume the body of a single-quoted string up to (and including) the
closing quote, returning the content characters. -/
def parseStr : List Char → Option (List Char × List Char)
  | [] => none
  | c :: cs =>
      if c = quoteChar then some ([], cs)
      else (parseStr cs).map fun p => (c :: p.1, p.2)

/-- The integer literal value (`neg` = a leading minus was read). -/
def intOf (neg : Bool) (ip : ℕ) : ℤ :=
  if neg then -(ip : ℤ) else (ip : ℤ)

/-- The float literal value from integer part, fraction digits value and
fraction digit count. -/
def floatOf (neg : Bool) (ip fp fcnt : ℕ) : ℚ :=
  let q : ℚ := (ip : ℚ) + (fp : ℚ) / ((10 : ℚ) ^ fcnt)
  if neg then -q else q

/-- Parse a numeric literal (after an optional already-consumed minus
sign): a digit run, optionally followed by a dot and a second digit
run. -/
def parseNum (neg : Bool) (cs : List Char) : Option (PyVal × List Char) :=
  match grabDigits cs 0 0 with
  | (ip, cnt, rest) =>
    if cnt = 0 then none
    else
      match rest with
      | c :: rest2 =>
          if c = '.' then
            match grabDigits rest2 0 0 with
            | (fp, fcnt, rest3) =>
                if fcnt = 0 then none
                else some (.pfloat (floatOf neg ip fp fcnt), rest3)
          else some (.pint (intOf neg ip), c :: rest2)
      | [] => some (.pint (intOf neg ip), [])

mutual

/-- One literal value of the genome file grammar (the fragment of
`ast.literal_eval` the format uses): a single-quoted string, a tuple, a
`None`, or a (possibly negative, possibly fractional) number.  Fuel
bounds the nesting recursion. -/
def parseVal : ℕ → List Char → Option (PyVal × List Char)
  | 0, _ => none
  | fuel + 1, cs =>
    match cs with
    | [] => none
    | c :: rest =>
        if c = quoteChar then
          (parseStr rest).map fun p => (PyVal.pstr (String.mk p.1), p.2)
        else if c = '(' then
          (parseElems fuel rest).map fun p => (PyVal.ptup p.1, p.2)
        else if c = 'N' then
          match rest with
          | 'o' :: 'n' :: 'e' :: r => some (PyVal.pnone, r)
          | _ => none
        else if c = '-' then parseNum true rest
        else if c.isDigit then parseNum false (c :: rest)
        else none

/-- The `", "`-separated element list of a tuple literal, up to (and
including) the closing parenthesis. -/
def parseElems : ℕ → List Char → Option (List PyVal × List Char)
  | 0, _ => none
  | fuel + 1, cs =>
    match parseVal fuel cs with
    | none => none
    | some (v, rest) =>
      match rest with
      | ')' :: r => some ([v], r)
      | ',' :: ' ' :: r =>
          match parseElems fuel r with
          | none => none
          | some (vs, r2) => some (v :: vs, r2)
      | _ => none

end

/-- `ast.literal_eval` applied to one stripped line: the whole line must
parse as a single literal. -/
def parseLine (l : String) : Option PyVal :=
  match parseVal 32 l.data with
  | some (v, []) => some v
  | _ => none

/-- The Python value of an instruction tuple, as written by
`save_individual` (`f"{instr}\n"`). -/
def toPyVal : Instruction → PyVal
  | .set_flags f => .ptup [.pstr "set_flags", .pstr f]
  | .set_ips a b => .ptup [.pstr "set_ips", .ptup [.pstr a, .pstr b]]
  | .set_ports a b => .ptup [.pstr "set_ports", .ptup [.pint a, .pint b]]
  | .set_ttl t => .ptup [.pstr "set_ttl", .pint t]
  | .set_window_size w => .ptup [.pstr "set_window_size", .pint w]
  | .set_payload_length l => .ptup [.pstr "set_payload_length", .pint l]
  | .set_ip_flags f => .ptup [.pstr "set_ip_flags", .pstr f]
  | .set_delay d => .ptup [.pstr "set_delay", .pfloat d]
  | .send_packet => .ptup [.pstr "send_packet", .pnone]

/-- The structured instruction a loaded Python value denotes, when it is
one of the vocabulary shapes. -/
def fromPyVal : PyVal → Option Instruction
  | .ptup [.pstr "set_flags", .pstr f] => some (.set_flags f)
  | .ptup [.pstr "set_ips", .ptup [.pstr a, .pstr b]] => some (.set_ips a b)
  | .ptup [.pstr "set_ports", .ptup [.pint a, .pint b]] => some (.set_ports a b)
  | .ptup [.pstr "set_ttl", .pint t] => some (.set_ttl t)
  | .ptup [.pstr "set_window_size", .pint w] => some (.set_window_size w)
  | .ptup [.pstr "set_payload_length", .pint l] => some (.set_payload_length l)
  | .ptup [.pstr "set_ip_flags", .pstr f] => some (.set_ip_flags f)
  | .ptup [.pstr "set_delay", .pfloat d] => some (.set_delay d)
  | .ptup [.pstr "send_packet", .pnone] => some .send_packet
  | _ => none

/-- One line of `save_individual`: the `repr` of the instruction
tuple. -/
def instrLine (i : Instruction) : String :=
  String.mk (pyReprChars (toPyVal i))

/-- `ga.save_individual`: one `repr` line per instruction (the file is
modelled as its list of lines). -/
def save_individual (genome : List Instruction) : List String :=
  genome.map instrLine

/-- `replay.load_individual`: `ast.literal_eval` each stripped line; a
malformed line is a parse error aborting the load. -/
def load_individual : List String → Option (List PyVal)
  | [] => some []
  | l :: ls =>
      match parseLine l with
      | none => none
      | some v =>
          match load_individual ls with
          | none => none
          | some vs => some (v :: vs)

/-- Decode a loaded value list back into instructions. -/
def decodeGenome : List PyVal → Option (List Instruction)
  | [] => some []
  | v :: vs =>
      match fromPyVal v with
      | none => none
      | some i =>
          match decodeGenome vs with
          | none => none
          | some g => some (i :: g)

/-- The parameter values of the vocabulary that round-trip through
`repr`: strings `repr` prints literally, and two-decimal non-negative
floats (the `round(random.uniform(0.0, 2.0), 2)` delays). -/
def GoodInstr : Instruction → Prop
  | .set_flags f => GoodStr f
  | .set_ips a b => GoodStr a ∧ GoodStr b
  | .set_ports _ _ => True
  | .set_ttl _ => True
  | .set_window_size _ => True
  | .set_payload_length _ => True
  | .set_ip_flags f => GoodStr f
  | .set_delay d => 0 ≤ d ∧ d.den ∣ 100
  | .send_packet => True

/-! ## replay.py: the replay engine

`Replay.run` iterates over loaded `(instr, param)` tuples, dispatching
on the string tag, and classifies each sent probe's response.  Loaded
values are untyped Python values, so the replay packet's port and flag
fields hold `PyVal`s; a line that is not a 2-tuple crashes the
unpacking (modelled as `none`), and an unknown string tag is a no-op,
exactly as the source's `if`/`elif` chain falls through. -/

/-- A (possibly absent) probe response: whether it has a TCP layer and
its TCP flags (as the string scapy's flag comparison uses). -/
structure Response where
  hasTCP : Bool
  tcpFlags : String

/-- The classification logic of `Packet.replay_and_classify_packet`:
no response → `filtered`; TCP with SYN+ACK → `open`; TCP with RST+ACK →
`closed`; anything else → `unknown`. -/
def classify (resp : Option Response) : String :=
  match resp with
  | none => "filtered"
  | some r =>
      if r.hasTCP then
        if r.tcpFlags = "SA" then "open"
        else if r.tcpFlags = "RA" then "closed"
        else "unknown"
      else "unknown"

/-- The replay engine's packet state (`Packet` fields as replay touches
them; ports and flags are dynamically typed in the source, so they hold
loaded Python values here). -/
structure RPacket where
  src_ip : String
  dst_ip : String
  src_port : PyVal
  dst_port : PyVal
  flags : PyVal

/-- `Packet.__init__` as seen by the replay engine. -/
def RPacket.init : RPacket :=
  { src_ip := SOURCE_IP
    dst_ip := DEFAULT_DST_IP
    src_port := .pint DEFAULT_SRC_PORT
    dst_port := .pint DEFAULT_PORT
    flags := .pstr "S" }

/-- The fields of one probe sent during replay. -/
structure SentProbe where
  src_ip : String
  dst_ip : String
  src_port : PyVal
  dst_port : PyVal
  flags : PyVal

/-- The `self.results` tally of `Replay`. -/
structure ReplayResults where
  openCount : ℕ
  closedCount : ℕ
  filteredCount : ℕ
  unknownCount : ℕ
  deriving DecidableEq, Repr

/-- `self.results[result] += 1`. -/
def bump (r : ReplayResults) (key : String) : ReplayResults :=
  if key = "open" then { r with openCount := r.openCount + 1 }
  else if key = "closed" then { r with closedCount := r.closedCount + 1 }
  else if key = "filtered" then { r with filteredCount := r.filteredCount + 1 }
  else if key = "unknown" then { r with unknownCount := r.unknownCount + 1 }
  else r

/-- Python truthiness of a literal value. -/
def pyTruthy : PyVal → Bool
  | .pstr s => !s.isEmpty
  | .pint n => decide (n ≠ 0)
  | .pfloat q => decide (q ≠ 0)
  | .pnone => false
  | .ptup l => !l.isEmpty

/-- The loop state of `Replay.run`: the packet, the tally, the log of
probes actually sent, and the cursor into the response oracle. -/
structure ReplayState where
  packet : RPacket
  results : ReplayResults
  sends : List SentProbe
  attempts : ℕ

/-- The state `Replay.__init__` + a fresh `Packet()` sets up. -/
def initReplayState : ReplayState :=
  { packet := RPacket.init, results := ⟨0, 0, 0, 0⟩, sends := [], attempts := 0 }

/-- One iteration of the `Replay.run` loop.  `tip` is the
caller-supplied target address, `tps` the optional port override, and
`resp` the per-send response oracle (for `sr1`). -/
def replayStep (tip : String) (tps : Option PyVal) (resp : ℕ → Option Response)
    (s : ReplayState) (instr : PyVal) : Option ReplayState :=
  match instr with
  | .ptup [tag, param] =>
    match tag with
    | .pstr t =>
        if t = "set_flags" then
          some { s with packet := { s.packet with flags := param } }
        else if t = "set_ports" then
          match param with
          | .ptup [p, q] =>
              let d := match tps with
                | some tv => if pyTruthy tv then tv else q
                | none => q
              some { s with packet := { s.packet with src_port := p, dst_port := d } }
          | _ => none
        else if t = "set_ips" then
          match param with
          | .ptup [_, _] =>
              some { s with packet := { s.packet with src_ip := SOURCE_IP, dst_ip := tip } }
          | _ => none
        else if t = "send_packet" then
          match s.packet.dst_port with
          | .pnone => none
          | _ =>
              let dip := if tip = "" then s.packet.dst_ip else tip
              let probe : SentProbe :=
                { src_ip := s.packet.src_ip, dst_ip := dip, src_port := s.packet.src_port,
                  dst_port := s.packet.dst_port, flags := s.packet.flags }
              some { s with results := bump s.results (classify (resp s.attempts)),
                            sends := s.sends ++ [probe], attempts := s.attempts + 1 }
        else some s
    | _ => some s
  | _ => none

/-- The `Replay.run` instruction loop over a loaded value list. -/
def replayRun (tip : String) (tps : Option PyVal) (resp : ℕ → Option Response) :
    List PyVal → ReplayState → Option ReplayState
  | [], s => some s
  | v :: vs, s =>
      match replayStep tip tps resp s v with
      | none => none
      | some s2 => replayRun tip tps resp vs s2

/-- The literal line `('send_probe', None)` of the C7 scenario file
(the `repr` of the tuple `("send_probe", None)`). -/
def sendProbeLine : String :=
  String.mk (pyReprChars (PyVal.ptup [PyVal.pstr "send_probe", PyVal.pnone]))

instance : (i : Instruction) → Decidable (GoodInstr i)
  | .set_flags f => inferInstanceAs (Decidable (GoodStr f))
  | .set_ips a b => inferInstanceAs (Decidable (GoodStr a ∧ GoodStr b))
  | .set_ports _ _ => inferInstanceAs (Decidable True)
  | .set_ttl _ => inferInstanceAs (Decidable True)
  | .set_window_size _ => inferInstanceAs (Decidable True)
  | .set_payload_length _ => inferInstanceAs (Decidable True)
  | .set_ip_flags f => inferInstanceAs (Decidable (GoodStr f))
  | .set_delay d => inferInstanceAs (Decidable (0 ≤ d ∧ d.den ∣ 100))
  | .send_packet => inferInstanceAs (Decidable True)

/-- A concrete all-zero draw stream for witnesses. -/
def zeroGenOracle : GenOracle :=
  { flagOf := fun _ => 0, octet := fun _ => 0, sport := fun _ => 0, dport := fun _ => 0
    ttlOf := fun _ => 0, windowOf := fun _ => 0, payloadOf := fun _ => 0
    ipflagOf := fun _ => 0, delayOf := fun _ => 0, mix := fun _ => 0, shuffleOf := fun _ => 0 }

/-- A concrete all-zero draw stream for witnesses. -/
def zeroMutOracle : MutOracle :=
  { rand := fun _ => 0, choice := fun _ => 0, flagOf := fun _ => 0
    octet := fun _ => 0, sport := fun _ => 0, dport := fun _ => 0 }

/-! ## Helper lemmas -/

theorem listSwap_length [Inhabited α] (l : List α) (i j : ℕ) :
    (listSwap l i j).length = l.length := by
  simp [listSwap]

theorem fyAux_length [Inhabited α] (idx : ℕ → ℕ) :
    ∀ (n : ℕ) (l : List α), (fyAux idx n l).length = l.length
  | 0, _ => rfl
  | Nat.succ i, l => by
      rw [fyAux, fyAux_length idx i, listSwap_length]

theorem pyShuffle_length [Inhabited α] (idx : ℕ → ℕ) (l : List α) :
    (pyShuffle idx l).length = l.length := by
  rw [pyShuffle, fyAux_length]

theorem crossover_lengths (p1 p2 : List Instruction) (cp n : ℕ)
    (h1 : p1.length = n) (h2 : p2.length = n)
    (hcp : cp * crossoverPageSize + crossoverPageSize ≤ n) :
    (crossover p1 p2 cp).1.length = n ∧ (crossover p1 p2 cp).2.length = n := by
  constructor <;>
    (simp only [crossover, pySliceAssign, pySlice, List.length_append, List.length_take,
      List.length_drop, h1, h2]
     omega)

theorem getD_mapIdx (l : List α) (f : ℕ → α → α) (i : ℕ) (d : α) (h : i < l.length) :
    (l.mapIdx f).getD i d = f i (l.getD i d) := by
  rw [List.getD_eq_getElem?_getD, List.getD_eq_getElem?_getD,
    List.getElem?_eq_getElem (by simpa using h), List.getElem?_eq_getElem h]
  simp

theorem mapIdx_id_of_eq (l : List α) (f : ℕ → α → α) (h : ∀ i a, f i a = a) :
    l.mapIdx f = l := by
  induction l generalizing f with
  | nil => rfl
  | cons a t ih => rw [List.mapIdx_cons, h 0 a, ih _ fun i b => h (i + 1) b]

theorem applyOps_length (ops : List GAOp) (gnm : List Instruction)
    (hg : gnm.length = PAGE_COUNT * PAGE_SIZE) (hops : ∀ op ∈ ops, ValidOp op) :
    (applyOps ops gnm).length = PAGE_COUNT * PAGE_SIZE := by
  induction ops generalizing gnm with
  | nil => exact hg
  | cons op rest ih =>
      have hop := hops op (List.mem_cons_self _ _)
      have hlen : (applyOp gnm op).length = PAGE_COUNT * PAGE_SIZE := by
        cases op with
        | cross other cp first =>
            obtain ⟨ho, hcp⟩ := hop
            have hb : cp * crossoverPageSize + crossoverPageSize ≤ PAGE_COUNT * PAGE_SIZE := by
              norm_num [PAGE_COUNT, PAGE_SIZE, crossoverPageSize] at hcp ⊢
              omega
            cases first with
            | true =>
                simpa [applyOp] using (crossover_lengths gnm other cp _ hg ho hb).1
            | false =>
                simpa [applyOp] using (crossover_lengths other gnm cp _ ho hg hb).2
        | mutOp o tip lo hi g G => simp [applyOp, mutate, hg]
        | swp i j => simp [applyOp, listSwap_length, hg]
      have hstep : applyOps (op :: rest) gnm = applyOps rest (applyOp gnm op) := rfl
      rw [hstep]
      exact ih _ hlen fun op' h' => hops op' (List.mem_cons_of_mem _ h')

/-! ### Round-trip lemmas for the genome file format -/

theorem digitChar_toNat (k : ℕ) (h : k < 10) : (Char.ofNat (48 + k)).toNat = 48 + k := by
  interval_cases k <;> decide

theorem digitChar_isDigit (k : ℕ) (h : k < 10) : (Char.ofNat (48 + k)).isDigit = true := by
  interval_cases k <;> decide

theorem natDigits_ne_nil (n : ℕ) : natDigits n ≠ [] := by
  rw [natDigits]
  split_ifs <;> simp

theorem natDigits_digits (n : ℕ) : ∀ c ∈ natDigits n, c.isDigit = true := by
  induction n using Nat.strong_induction_on with
  | _ n ih =>
    rw [natDigits]
    split_ifs with h
    · intro c hc
      simp only [List.mem_singleton] at hc
      subst hc
      exact digitChar_isDigit n h
    · intro c hc
      rcases List.mem_append.mp hc with h1 | h2
      · exact ih (n / 10) (Nat.div_lt_self (by omega) (by omega)) c h1
      · simp only [List.mem_singleton] at h2
        subst h2
        exact digitChar_isDigit (n % 10) (Nat.mod_lt _ (by omega))

theorem foldDigits_natDigits (n : ℕ) :
    ∀ acc, foldDigits acc (natDigits n) = acc * 10 ^ (natDigits n).length + n := by
  induction n using Nat.strong_induction_on with
  | _ n ih =>
    intro acc
    rw [natDigits]
    split_ifs with h
    · simp [foldDigits, digitChar_toNat n h]
      omega
    · have hlt : n / 10 < n := Nat.div_lt_self (by omega) (by omega)
      have hdig : (Char.ofNat (48 + n % 10)).toNat = 48 + n % 10 :=
        digitChar_toNat _ (Nat.mod_lt _ (by omega))
      have hfold : foldDigits acc (natDigits (n / 10) ++ [Char.ofNat (48 + n % 10)]) =
          10 * foldDigits acc (natDigits (n / 10)) +
            ((Char.ofNat (48 + n % 10)).toNat - 48) := by
        simp [foldDigits, List.foldl_append]
      rw [hfold, hdig, ih (n / 10) hlt acc, List.length_append]
      have hp : 10 ^ ((natDigits (n / 10)).length + [Char.ofNat (48 + n % 10)].length) =
          10 ^ (natDigits (n / 10)).length * 10 := by
        simp [pow_succ]
      rw [hp, ← Nat.mul_assoc]
      have hdm := Nat.div_add_mod n 10
      set Y := acc * 10 ^ (natDigits (n / 10)).length
      omega

theorem grabDigits_spec : ∀ (ds : List Char), (∀ c ∈ ds, c.isDigit = true) →
    ∀ (rest : List Char), (∀ c, rest.head? = some c → c.isDigit = false) →
    ∀ acc cnt, grabDigits (ds ++ rest) acc cnt = (foldDigits acc ds, cnt + ds.length, rest) := by
  intro ds
  induction ds with
  | nil =>
      intro _ rest hr acc cnt
      simp only [List.nil_append, foldDigits, List.foldl_nil, List.length_nil, Nat.add_zero]
      cases rest with
      | nil => rfl
      | cons c cs => simp [grabDigits, hr c rfl]
  | cons d ds ih =>
      intro hds rest hr acc cnt
      have hd : d.isDigit = true := hds d (List.mem_cons_self _ _)
      have hds2 : ∀ c ∈ ds, c.isDigit = true := fun c hc => hds c (List.mem_cons_of_mem _ hc)
      rw [List.cons_append]
      rw [show grabDigits (d :: (ds ++ rest)) acc cnt =
        grabDigits (ds ++ rest) (10 * acc + (d.toNat - 48)) (cnt + 1) from by
          simp [grabDigits, hd]]
      rw [ih hds2 rest hr _ _]
      have h1 : foldDigits (10 * acc + (d.toNat - 48)) ds = foldDigits acc (d :: ds) := rfl
      have h2 : cnt + 1 + ds.length = cnt + (d :: ds).length := by
        simp [List.length_cons]
        omega
      rw [h1, h2]

theorem parseStr_spec : ∀ (l : List Char), (∀ c ∈ l, c ≠ quoteChar) → ∀ rest,
    parseStr (l ++ quoteChar :: rest) = some (l, rest) := by
  intro l
  induction l with
  | nil => intro _ rest; simp [parseStr]
  | cons c cs ih =>
      intro h rest
      have hc : c ≠ quoteChar := h c (List.mem_cons_self _ _)
      simp [parseStr, hc, ih (fun x hx => h x (List.mem_cons_of_mem _ hx)) rest]

theorem parseNum_natDigits (m : ℕ) (neg : Bool) (rest : List Char) (hr : numSafe rest) :
    parseNum neg (natDigits m ++ rest) = some (.pint (intOf neg m), rest) := by
  unfold parseNum
  rw [grabDigits_spec (natDigits m) (natDigits_digits m) rest (fun c hc => (hr c hc).1) 0 0]
  have hfold : foldDigits 0 (natDigits m) = m := by
    rw [foldDigits_natDigits]
    simp
  have hlen : (natDigits m).length ≠ 0 :=
    fun h => natDigits_ne_nil m (List.length_eq_zero.mp h)
  simp only [hfold]
  rw [if_neg (by simpa using hlen)]
  cases rest with
  | nil => rfl
  | cons c cs => simp [(hr c rfl).2]

theorem parseVal_quote (f : ℕ) (cs : List Char) :
    parseVal (f + 1) (quoteChar :: cs) =
      (parseStr cs).map fun p => (PyVal.pstr (String.mk p.1), p.2) := by
  simp [parseVal]

theorem parseVal_lparen (f : ℕ) (cs : List Char) :
    parseVal (f + 1) ('(' :: cs) =
      (parseElems f cs).map fun p => (PyVal.ptup p.1, p.2) := by
  simp [parseVal, show ¬('(' = quoteChar) by decide]

theorem parseVal_none_lit (f : ℕ) (r : List Char) :
    parseVal (f + 1) ('N' :: 'o' :: 'n' :: 'e' :: r) = some (.pnone, r) := by
  simp [parseVal, show ¬('N' = quoteChar) by decide, show ¬('N' = '(') by decide]

theorem parseVal_minus (f : ℕ) (cs : List Char) :
    parseVal (f + 1) ('-' :: cs) = parseNum true cs := by
  simp [parseVal, show ¬('-' = quoteChar) by decide, show ¬('-' = '(') by decide,
    show ¬('-' = 'N') by decide, show ¬('-'.isDigit = true) by decide]

theorem parseVal_digit (f : ℕ) (c : Char) (cs : List Char) (h : c.isDigit = true) :
    parseVal (f + 1) (c :: cs) = parseNum false (c :: cs) := by
  have h1 : ¬(c = quoteChar) := fun he => absurd (he ▸ h) (by decide)
  have h2 : ¬(c = '(') := fun he => absurd (he ▸ h) (by decide)
  have h3 : ¬(c = 'N') := fun he => absurd (he ▸ h) (by decide)
  have h4 : ¬(c = '-') := fun he => absurd (he ▸ h) (by decide)
  simp [parseVal, h1, h2, h3, h4, h]

theorem parseElems_last_eq (f : ℕ) (cs : List Char) (v : PyVal) (r : List Char)
    (h : parseVal f cs = some (v, ')' :: r)) : parseElems (f + 1) cs = some ([v], r) := by
  simp [parseElems, h]

theorem parseElems_cons_eq (f : ℕ) (cs rest : List Char) (v : PyVal) (vs : List PyVal)
    (r : List Char) (h1 : parseVal f cs = some (v, ',' :: ' ' :: rest))
    (h2 : parseElems f rest = some (vs, r)) : parseElems (f + 1) cs = some (v :: vs, r) := by
  simp [parseElems, h1, h2]

theorem parses_pstr (s : String) (hs : GoodStr s) (f : ℕ) (r : List Char) :
    parseVal (f + 1) (pyReprChars (.pstr s) ++ r) = some (.pstr s, r) := by
  have he : pyReprChars (.pstr s) ++ r = quoteChar :: (s.data ++ quoteChar :: r) := by
    simp [pyReprChars]
  rw [he, parseVal_quote, parseStr_spec s.data (fun c hc => (hs c hc).2.2.1) r]
  rfl

theorem parses_pnone (f : ℕ) (r : List Char) :
    parseVal (f + 1) (pyReprChars .pnone ++ r) = some (.pnone, r) := by
  have he : pyReprChars .pnone ++ r = 'N' :: 'o' :: 'n' :: 'e' :: r := by
    simp [pyReprChars]
  rw [he, parseVal_none_lit]

theorem parses_pint (n : ℤ) (f : ℕ) (r : List Char) (hr : numSafe r) :
    parseVal (f + 1) (pyReprChars (.pint n) ++ r) = some (.pint n, r) := by
  by_cases hn : n < 0
  · have he : pyReprChars (.pint n) ++ r = '-' :: (natDigits n.natAbs ++ r) := by
      simp [pyReprChars, if_pos hn]
    rw [he, parseVal_minus, parseNum_natDigits _ true r hr]
    have hv : intOf true n.natAbs = n := by
      have he : intOf true n.natAbs = -(n.natAbs : ℤ) := rfl
      rw [he]
      omega
    rw [hv]
  · obtain ⟨d, ds, hds⟩ : ∃ d ds, natDigits n.natAbs = d :: ds := by
      cases h : natDigits n.natAbs with
      | nil => exact absurd h (natDigits_ne_nil _)
      | cons d ds => exact ⟨d, ds, rfl⟩
    have he : pyReprChars (.pint n) ++ r = d :: (ds ++ r) := by
      simp [pyReprChars, if_neg hn, hds]
    have hd : d.isDigit = true := natDigits_digits n.natAbs d (hds ▸ List.mem_cons_self _ _)
    rw [he, parseVal_digit f d _ hd,
      show d :: (ds ++ r) = natDigits n.natAbs ++ r from by rw [hds]; rfl,
      parseNum_natDigits _ false r hr]
    have hv : intOf false n.natAbs = n := by
      have he : intOf false n.natAbs = (n.natAbs : ℤ) := rfl
      rw [he]
      omega
    rw [hv]

theorem twoDec_val (q : ℚ) (h0 : 0 ≤ q) (hd : q.den ∣ 100) :
    ((q.num.toNat * (100 / q.den) : ℕ) : ℚ) = q * 100 := by
  obtain ⟨m, hm⟩ := hd
  have hden : 0 < q.den := q.den_pos
  have hdiv : 100 / q.den = m := by
    rw [hm]
    exact Nat.mul_div_cancel_left m hden
  have hnum : (0 : ℤ) ≤ q.num := Rat.num_nonneg.mpr h0
  have hqden : (q.den : ℚ) ≠ 0 := by
    exact_mod_cast hden.ne'
  have hq : (q.num : ℚ) = q * q.den := by
    have h := Rat.num_div_den q
    rw [div_eq_iff hqden] at h
    exact h.symm ▸ rfl
  have ht : ((q.num.toNat : ℕ) : ℚ) = (q.num : ℚ) := by
    exact_mod_cast Int.toNat_of_nonneg hnum
  have hm2 : (100 : ℚ) = (q.den : ℚ) * (m : ℚ) := by exact_mod_cast hm
  rw [hdiv]
  push_cast
  rw [ht, hq, hm2]
  ring

theorem parses_pfloat (q : ℚ) (h0 : 0 ≤ q) (hdvd : q.den ∣ 100) (f : ℕ) (r : List Char)
    (hr : numSafe r) :
    parseVal (f + 1) (pyReprChars (.pfloat q) ++ r) = some (.pfloat q, r) := by
  have hq : ¬(q < 0) := not_lt.mpr h0
  have hqn : ((q.num.toNat * (100 / q.den) : ℕ) : ℚ) = q * 100 := twoDec_val q h0 hdvd
  set n : ℕ := q.num.toNat * (100 / q.den) with hn
  have hfr : n % 100 < 100 := Nat.mod_lt _ (by omega)
  -- The printed form: integer part, dot, one or two fraction digits.
  set frds : List Char :=
    (if n % 100 % 10 = 0 then [Char.ofNat (48 + n % 100 / 10)]
     else [Char.ofNat (48 + n % 100 / 10), Char.ofNat (48 + n % 100 % 10)]) with hfrds
  have hrepr : pyReprChars (.pfloat q) ++ r =
      natDigits (n / 100) ++ ('.' :: (frds ++ r)) := by
    simp only [pyReprChars, if_neg hq, twoDecRepr, ← hn, hfrds, List.append_assoc,
      List.cons_append]
  obtain ⟨d, ds, hds⟩ : ∃ d ds, natDigits (n / 100) = d :: ds := by
    cases h : natDigits (n / 100) with
    | nil => exact absurd h (natDigits_ne_nil _)
    | cons d ds => exact ⟨d, ds, rfl⟩
  have hd : d.isDigit = true := natDigits_digits _ d (hds ▸ List.mem_cons_self _ _)
  have hfrdig : ∀ c ∈ frds, c.isDigit = true := by
    rw [hfrds]
    split_ifs
    · simp only [List.mem_singleton]
      rintro c rfl
      exact digitChar_isDigit _ (by omega)
    · simp only [List.mem_cons, List.mem_singleton, List.not_mem_nil, or_false]
      rintro c (rfl | rfl)
      · exact digitChar_isDigit _ (by omega)
      · exact digitChar_isDigit _ (by omega)
  rw [hrepr, hds, List.cons_append, parseVal_digit f d _ hd,
    show d :: (ds ++ ('.' :: (frds ++ r))) = natDigits (n / 100) ++ ('.' :: (frds ++ r)) from by
      rw [hds]; rfl]
  unfold parseNum
  rw [grabDigits_spec (natDigits (n / 100)) (natDigits_digits _) ('.' :: (frds ++ r))
    (by intro c hc; simp at hc; subst hc; decide) 0 0]
  have hfold : foldDigits 0 (natDigits (n / 100)) = n / 100 := by
    rw [foldDigits_natDigits]
    simp
  have hlen : (natDigits (n / 100)).length ≠ 0 :=
    fun h => natDigits_ne_nil _ (List.length_eq_zero.mp h)
  simp only [hfold]
  rw [if_neg (by simpa using hlen)]
  simp only [eq_self_iff_true, if_true]
  rw [grabDigits_spec frds hfrdig r (fun c hc => (hr c hc).1) 0 0]
  have hfcnt : frds.length ≠ 0 := by
    rw [hfrds]
    split_ifs <;> simp
  have hcond : ¬((foldDigits 0 frds, 0 + frds.length, r).2.1 = 0) := by
    simpa using hfcnt
  rw [if_neg hcond]
  have hproj1 : (foldDigits 0 frds, 0 + frds.length, r).1 = foldDigits 0 frds := rfl
  have hproj2 : (foldDigits 0 frds, 0 + frds.length, r).2.1 = frds.length := by simp
  have hproj3 : (foldDigits 0 frds, 0 + frds.length, r).2.2 = r := rfl
  rw [hproj1, hproj2, hproj3]
  have hval : floatOf false (n / 100) (foldDigits 0 frds) frds.length = q := by
    rw [hfrds]
    split_ifs with hz
    · have hfd : foldDigits 0 [Char.ofNat (48 + n % 100 / 10)] = n % 100 / 10 := by
        simp [foldDigits, digitChar_toNat _ (show n % 100 / 10 < 10 by omega)]
      rw [hfd]
      have hflo : floatOf false (n / 100) (n % 100 / 10)
          ([Char.ofNat (48 + n % 100 / 10)]).length =
          ((n / 100 : ℕ) : ℚ) + ((n % 100 / 10 : ℕ) : ℚ) / 10 := by
        simp [floatOf]
      rw [hflo]
      have hsplit2 : n = 100 * (n / 100) + 10 * (n % 100 / 10) := by omega
      have hcast : (n : ℚ) = 100 * ((n / 100 : ℕ) : ℚ) + 10 * ((n % 100 / 10 : ℕ) : ℚ) := by
        exact_mod_cast hsplit2
      rw [hcast] at hqn
      linarith [hqn]
    · have hfd : foldDigits 0 [Char.ofNat (48 + n % 100 / 10), Char.ofNat (48 + n % 100 % 10)] =
          n % 100 := by
        simp [foldDigits, digitChar_toNat _ (show n % 100 / 10 < 10 by omega),
          digitChar_toNat _ (show n % 100 % 10 < 10 by omega)]
        omega
      rw [hfd]
      have hflo : floatOf false (n / 100) (n % 100)
          ([Char.ofNat (48 + n % 100 / 10), Char.ofNat (48 + n % 100 % 10)]).length =
          ((n / 100 : ℕ) : ℚ) + ((n % 100 : ℕ) : ℚ) / 100 := by
        simp [floatOf]
        norm_num
      rw [hflo]
      have hsplit2 : n = 100 * (n / 100) + n % 100 := by omega
      have hcast : (n : ℚ) = 100 * ((n / 100 : ℕ) : ℚ) + ((n % 100 : ℕ) : ℚ) := by
        exact_mod_cast hsplit2
      rw [hcast] at hqn
      linarith [hqn]
  rw [hval]

theorem numSafe_nil : numSafe [] := fun _ h => by simp at h

theorem parses_pair (a b : PyVal) (Ka Kb : ℕ)
    (ha : ∀ f r, numSafe r → parseVal (f + Ka + 1) (pyReprChars a ++ r) = some (a, r))
    (hb : ∀ f r, numSafe r → parseVal (f + Kb + 1) (pyReprChars b ++ r) = some (b, r))
    (f : ℕ) (r : List Char) (_hr : numSafe r) :
    parseVal (f + (Ka + Kb + 3) + 1) (pyReprChars (.ptup [a, b]) ++ r) =
      some (.ptup [a, b], r) := by
  have hrepr : pyReprChars (.ptup [a, b]) ++ r =
      '(' :: (pyReprChars a ++ (',' :: ' ' :: (pyReprChars b ++ (')' :: r)))) := by
    simp [pyReprChars, reprElems, List.append_assoc]
  rw [hrepr, show f + (Ka + Kb + 3) + 1 = (f + Ka + Kb + 3) + 1 from by omega, parseVal_lparen]
  have hstep1 : parseVal (f + Ka + Kb + 2)
      (pyReprChars a ++ (',' :: ' ' :: (pyReprChars b ++ (')' :: r)))) =
      some (a, ',' :: ' ' :: (pyReprChars b ++ (')' :: r))) := by
    have h := ha (f + Kb + 1) (',' :: ' ' :: (pyReprChars b ++ (')' :: r)))
      (by intro c hc; simp at hc; subst hc; exact ⟨by decide, by decide⟩)
    rwa [show f + Kb + 1 + Ka + 1 = f + Ka + Kb + 2 from by omega] at h
  have hstep2 : parseVal (f + Ka + Kb + 1) (pyReprChars b ++ (')' :: r)) =
      some (b, ')' :: r) := by
    have h := hb (f + Ka) (')' :: r)
      (by intro c hc; simp at hc; subst hc; exact ⟨by decide, by decide⟩)
    rwa [show f + Ka + Kb + 1 = f + Ka + Kb + 1 from rfl] at h
  have helems2 : parseElems (f + Ka + Kb + 2) (pyReprChars b ++ (')' :: r)) = some ([b], r) :=
    parseElems_last_eq _ _ _ _ hstep2
  have helems : parseElems (f + Ka + Kb + 3)
      (pyReprChars a ++ (',' :: ' ' :: (pyReprChars b ++ (')' :: r)))) = some ([a, b], r) :=
    parseElems_cons_eq _ _ _ _ _ _ hstep1 helems2
  rw [helems]
  rfl

theorem parseLine_instr (i : Instruction) (hi : GoodInstr i) :
    parseLine (instrLine i) = some (toPyVal i) := by
  have hmain : parseVal 32 (pyReprChars (toPyVal i) ++ []) = some (toPyVal i, []) := by
    cases i with
    | set_flags fl =>
        exact parses_pair _ _ 0 0
          (fun f r _ => parses_pstr "set_flags" (by decide) f r)
          (fun f r _ => parses_pstr fl hi f r) 28 [] numSafe_nil
    | set_ips a b =>
        exact parses_pair _ _ 0 3
          (fun f r _ => parses_pstr "set_ips" (by decide) f r)
          (fun f r hr => parses_pair _ _ 0 0
            (fun f2 r2 _ => parses_pstr a hi.1 f2 r2)
            (fun f2 r2 _ => parses_pstr b hi.2 f2 r2) f r hr) 25 [] numSafe_nil
    | set_ports a b =>
        exact parses_pair _ _ 0 3
          (fun f r _ => parses_pstr "set_ports" (by decide) f r)
          (fun f r hr => parses_pair _ _ 0 0
            (fun f2 r2 hr2 => parses_pint a f2 r2 hr2)
            (fun f2 r2 hr2 => parses_pint b f2 r2 hr2) f r hr) 25 [] numSafe_nil
    | set_ttl t =>
        exact parses_pair _ _ 0 0
          (fun f r _ => parses_pstr "set_ttl" (by decide) f r)
          (fun f r hr => parses_pint t f r hr) 28 [] numSafe_nil
    | set_window_size w =>
        exact parses_pair _ _ 0 0
          (fun f r _ => parses_pstr "set_window_size" (by decide) f r)
          (fun f r hr => parses_pint w f r hr) 28 [] numSafe_nil
    | set_payload_length l =>
        exact parses_pair _ _ 0 0
          (fun f r _ => parses_pstr "set_payload_length" (by decide) f r)
          (fun f r hr => parses_pint l f r hr) 28 [] numSafe_nil
    | set_ip_flags fl =>
        exact parses_pair _ _ 0 0
          (fun f r _ => parses_pstr "set_ip_flags" (by decide) f r)
          (fun f r _ => parses_pstr fl hi f r) 28 [] numSafe_nil
    | set_delay d =>
        exact parses_pair _ _ 0 0
          (fun f r _ => parses_pstr "set_delay" (by decide) f r)
          (fun f r hr => parses_pfloat d hi.1 hi.2 f r hr) 28 [] numSafe_nil
    | send_packet =>
        exact parses_pair _ _ 0 0
          (fun f r _ => parses_pstr "send_packet" (by decide) f r)
          (fun f r _ => parses_pnone f r) 28 [] numSafe_nil
  rw [List.append_nil] at hmain
  unfold parseLine instrLine
  rw [show (String.mk (pyReprChars (toPyVal i))).data = pyReprChars (toPyVal i) from rfl, hmain]

theorem fromPyVal_toPyVal (i : Instruction) : fromPyVal (toPyVal i) = some i := by
  cases i <;> rfl

/-- C1: `evaluate_fitness` returns exactly 0 when zero probes were sent;
otherwise it returns `clamp(base + morphology_bonus + entropy_bonus -
flag_penalty, 0, 1)` with `base = 1 - alerts_triggered/probes_sent`;
empty observation categories default as in the source (TTL, payload and
delay averages default to 0, the window average to 65535); and the
returned fitness always lies in `[0, 1]` for any alert and probe
counts. -/
theorem evaluate_fitness_spec (instrs : List Instruction) (sendOk : ℕ → Bool) (alerts : Int) :
    ((runEval sendOk initEvalState instrs).sent_packets = 0 →
      evaluate_fitness instrs sendOk alerts = 0) ∧
    ((runEval sendOk initEvalState instrs).sent_packets ≠ 0 →
      evaluate_fitness instrs sendOk alerts =
        max (min ((1 - (alerts : ℚ) / ((runEval sendOk initEvalState instrs).sent_packets : ℚ)) +
          morphBonus (runEval sendOk initEvalState instrs) + entropyBonus instrs -
          flagPenalty instrs) 1) 0) ∧
    ((runEval sendOk initEvalState instrs).ttl_values = [] →
      listAvg ((runEval sendOk initEvalState instrs).ttl_values.map Int.cast) 0 = 0) ∧
    ((runEval sendOk initEvalState instrs).payload_lengths = [] →
      listAvg ((runEval sendOk initEvalState instrs).payload_lengths.map Int.cast) 0 = 0) ∧
    ((runEval sendOk initEvalState instrs).window_sizes = [] →
      listAvg ((runEval sendOk initEvalState instrs).window_sizes.map Int.cast) 65535 = 65535) ∧
    ((runEval sendOk initEvalState instrs).delays = [] →
      listAvg (runEval sendOk initEvalState instrs).delays 0 = 0) ∧
    0 ≤ evaluate_fitness instrs sendOk alerts ∧
    evaluate_fitness instrs sendOk alerts ≤ 1 := by
  refine ⟨fun h => by simp [evaluate_fitness, h],
          fun h => by simp [evaluate_fitness, h],
          fun h => by simp [listAvg, h],
          fun h => by simp [listAvg, h],
          fun h => by simp [listAvg, h],
          fun h => by simp [listAvg, h], ?_, ?_⟩
  · by_cases h : (runEval sendOk initEvalState instrs).sent_packets = 0
    · simp [evaluate_fitness, h]
    · simp only [evaluate_fitness, if_neg h]
      exact le_max_right _ _
  · by_cases h : (runEval sendOk initEvalState instrs).sent_packets = 0
    · simp [evaluate_fitness, h]
    · simp only [evaluate_fitness, if_neg h]
      exact max_le (min_le_right _ _) zero_le_one

/-- Witness for C1 at concrete inputs: an empty genome sends no probe
and scores 0; a one-send genome with 5 alerts still scores within
`[0, 1]`. -/
theorem evaluate_fitness_spec_witness :
    evaluate_fitness [] (fun _ => false) 0 = 0 ∧
    0 ≤ evaluate_fitness [Instruction.send_packet] (fun _ => true) 5 ∧
    evaluate_fitness [Instruction.send_packet] (fun _ => true) 5 ≤ 1 :=
  ⟨(evaluate_fitness_spec [] (fun _ => false) 0).1 rfl,
   (evaluate_fitness_spec [Instruction.send_packet] (fun _ => true) 5).2.2.2.2.2.2.1,
   (evaluate_fitness_spec [Instruction.send_packet] (fun _ => true) 5).2.2.2.2.2.2.2⟩

/-- C9: when the Transport raises on a `send_packet` instruction, the
failure is absorbed at that instruction: the state is unchanged except
for the consumed Transport slot (in particular `sent_packets` is not
incremented and the packet fields are untouched), and evaluation
continues with the remaining instructions exactly as it would from that
state; the evaluator never aborts. -/
theorem send_failure_skipped (sendOk : ℕ → Bool) (s : EvalState) (rest : List Instruction)
    (h : sendOk s.attempts = false) :
    evalStep sendOk s Instruction.send_packet = { s with attempts := s.attempts + 1 } ∧
    runEval sendOk s (Instruction.send_packet :: rest) =
      runEval sendOk { s with attempts := s.attempts + 1 } rest := by
  have h1 : evalStep sendOk s Instruction.send_packet = { s with attempts := s.attempts + 1 } := by
    simp [evalStep, h]
  exact ⟨h1, by simp [runEval, h1]⟩

/-- Witness for C9: a failing Transport on the first of two sends leaves
the fresh state unchanged apart from the consumed slot. -/
theorem send_failure_skipped_witness :
    evalStep (fun _ => false) initEvalState Instruction.send_packet =
      { initEvalState with attempts := initEvalState.attempts + 1 } ∧
    runEval (fun _ => false) initEvalState
        (Instruction.send_packet :: [Instruction.send_packet]) =
      runEval (fun _ => false) { initEvalState with attempts := initEvalState.attempts + 1 }
        [Instruction.send_packet] :=
  send_failure_skipped (fun _ => false) initEvalState [Instruction.send_packet] rfl

/-- C2: every freshly generated genome has length exactly
`PAGE_COUNT * PAGE_SIZE` (= 100), and any sequence of crossover,
mutation and swap applications (with the operator arguments drawn as
`evolve_population` draws them) maps length-100 genomes to length-100
genomes. -/
theorem genome_length_invariant (o : GenOracle) (tip : String) (lo hi : ℕ)
    (gnm : List Instruction) (ops : List GAOp)
    (hg : gnm.length = PAGE_COUNT * PAGE_SIZE) (hops : ∀ op ∈ ops, ValidOp op) :
    (random_instructions o tip lo hi).length = PAGE_COUNT * PAGE_SIZE ∧
    (applyOps ops gnm).length = PAGE_COUNT * PAGE_SIZE := by
  constructor
  · rw [random_instructions, pyShuffle_length]
    simp only [List.length_append, List.length_map, List.length_range, baseInstructions,
      List.length_cons, List.length_nil]
    norm_num [PAGE_COUNT, PAGE_SIZE]
  · exact applyOps_length ops gnm hg hops

/-- Witness for C2: a fresh genome from the all-zero stream has length
100, and swapping two genes of a length-100 genome keeps length 100. -/
theorem genome_length_invariant_witness :
    (random_instructions zeroGenOracle "10.0.0.1" 80 80).length = PAGE_COUNT * PAGE_SIZE ∧
    (applyOps [GAOp.swp 0 1]
      (List.replicate (PAGE_COUNT * PAGE_SIZE) Instruction.send_packet)).length =
      PAGE_COUNT * PAGE_SIZE := by
  have h := genome_length_invariant zeroGenOracle "10.0.0.1" 80 80
    (List.replicate (PAGE_COUNT * PAGE_SIZE) Instruction.send_packet) [GAOp.swp 0 1]
    (by simp)
    (by
      intro op hop
      have : op = GAOp.swp 0 1 := by simpa using hop
      subst this
      exact ⟨by decide, by decide, by decide⟩)
  exact h

/-- C3 (divergence witness): `ga.crossover` swaps a six-gene block, not
a `PAGE_SIZE` (= 5) gene page: with crossover point 0 over length-100
parents, the child inherits genes 0-5 (six genes) from the other
parent, while gene 6 still comes from its own parent. -/
theorem crossover_swaps_six_genes :
    PAGE_SIZE = 5 ∧ crossoverPageSize = 6 ∧
    (crossover (List.replicate 100 (Instruction.set_flags "A"))
      (List.replicate 100 (Instruction.set_flags "B")) 0).1.getD 4 Instruction.send_packet =
      Instruction.set_flags "B" ∧
    (crossover (List.replicate 100 (Instruction.set_flags "A"))
      (List.replicate 100 (Instruction.set_flags "B")) 0).1.getD 5 Instruction.send_packet =
      Instruction.set_flags "B" ∧
    (crossover (List.replicate 100 (Instruction.set_flags "A"))
      (List.replicate 100 (Instruction.set_flags "B")) 0).1.getD 6 Instruction.send_packet =
      Instruction.set_flags "A" := by
  refine ⟨rfl, rfl, ?_, ?_, ?_⟩ <;> rfl

/-- C4: `mutate` replaces each gene position independently exactly when
its draw falls below `p = DEFAULT_MUTATION_RATE * (1 - g/G)`, the
replacement kinds come only from the restricted vocabulary
`{set_flags, set_ips, set_ports, send_packet}`, the probability at
generation 0 equals `DEFAULT_MUTATION_RATE`, and at `g = G` no gene is
ever replaced. -/
theorem mutate_spec (o : MutOracle) (tip : String) (lo hi : ℕ) (instrs : List Instruction)
    (g G : ℕ) (hG : 0 < G) (hr : ∀ i, 0 ≤ o.rand i) :
    (mutate o tip lo hi instrs g G).length = instrs.length ∧
    (∀ i, i < instrs.length →
      (mutate o tip lo hi instrs g G).getD i default =
        (if o.rand i < mutationProb g G then mutReplacement o tip lo hi i
         else instrs.getD i default)) ∧
    (∀ i, (mutReplacement o tip lo hi i).kind ∈
      (["set_flags", "set_ips", "set_ports", "send_packet"] : List String)) ∧
    mutationProb 0 G = DEFAULT_MUTATION_RATE ∧
    mutate o tip lo hi instrs G G = instrs := by
  refine ⟨by simp [mutate], ?_, ?_, ?_, ?_⟩
  · intro i hi
    exact getD_mapIdx instrs _ i default hi
  · intro i
    unfold mutReplacement
    split_ifs <;> simp [Instruction.kind]
  · simp [mutationProb]
  · have hp : mutationProb G G = 0 := by
      rw [mutationProb, div_self (Nat.cast_ne_zero.mpr hG.ne')]
      ring
    refine mapIdx_id_of_eq instrs _ fun i a => ?_
    rw [hp, if_neg (not_lt.mpr (hr i))]

/-- Witness for C4: with the all-zero stream, generation 3 of 3 leaves
the genome untouched, and the generation-0 probability is the base
rate. -/
theorem mutate_spec_witness :
    mutate zeroMutOracle "10.0.0.1" 80 80 [Instruction.send_packet] 3 3 =
      [Instruction.send_packet] ∧
    mutationProb 0 3 = DEFAULT_MUTATION_RATE :=
  ⟨(mutate_spec zeroMutOracle "10.0.0.1" 80 80 [Instruction.send_packet] 3 3 (by norm_num)
      fun _ => le_refl 0).2.2.2.2,
   (mutate_spec zeroMutOracle "10.0.0.1" 80 80 [Instruction.send_packet] 3 3 (by norm_num)
      fun _ => le_refl 0).2.2.2.1⟩

theorem tOrd_snd_le {a b : ℕ × ℚ} (h : tOrd a b) : b.2 ≤ a.2 := by
  rcases h with h | ⟨e, _⟩
  · exact h.le
  · exact e.ge

theorem getD_of_get? {l : List ℚ} {i : ℕ} {x : ℚ} (h : l.get? i = some x) :
    l.getD i 0 = x := by
  rw [List.getD_eq_getElem?_getD, ← List.get?_eq_getElem?, h]
  rfl

theorem sortByFitness_perm (pop : List ℚ) : (sortByFitness pop).Perm pop := by
  have h1 : (List.insertionSort tOrd pop.enum).map Prod.snd |>.Perm (pop.enum.map Prod.snd) :=
    (List.perm_insertionSort tOrd pop.enum).map Prod.snd
  rw [List.enum_map_snd] at h1
  exact h1

theorem sortByFitness_length (pop : List ℚ) : (sortByFitness pop).length = pop.length :=
  (sortByFitness_perm pop).length_eq

/-- C5: under the preconditions `2 ≤ k ≤ |population|` (with the sample
a size-`k` draw without replacement), tournament selection returns two
individuals at distinct sample positions, the first of fitness at least
the second's and at least every competitor's, ties broken in favour of
the earlier-sampled competitor; and with `k` exceeding the population
size the call fails (models `random.sample` raising `ValueError`). -/
theorem tournament_selection_spec (pop : List ℚ) (k : ℕ) (sample : List ℕ) :
    (2 ≤ k → k ≤ pop.length → sample.length = k → sample.Nodup →
      (∀ i ∈ sample, i < pop.length) →
      ∃ i j, i < k ∧ j < k ∧ i ≠ j ∧
        tournament_selection pop k sample =
          some ((competitors pop sample).getD i 0, (competitors pop sample).getD j 0) ∧
        (competitors pop sample).getD j 0 ≤ (competitors pop sample).getD i 0 ∧
        (∀ m, m < k → (competitors pop sample).getD m 0 ≤ (competitors pop sample).getD i 0) ∧
        ((competitors pop sample).getD i 0 = (competitors pop sample).getD j 0 → i < j)) ∧
    (pop.length < k → tournament_selection pop k sample = none) := by
  constructor
  · intro h2 hk hs hnd hb
    have hcl : (competitors pop sample).length = k := by
      simp [competitors, hs]
    have hperm := List.perm_insertionSort tOrd (competitors pop sample).enum
    have hsorted := List.sorted_insertionSort tOrd (competitors pop sample).enum
    have hslen : (List.insertionSort tOrd (competitors pop sample).enum).length = k := by
      rw [hperm.length_eq, List.enum_length, hcl]
    obtain ⟨a, b, t, hst⟩ :
        ∃ a b t, List.insertionSort tOrd (competitors pop sample).enum = a :: b :: t := by
      cases hsl : List.insertionSort tOrd (competitors pop sample).enum with
      | nil => rw [hsl] at hslen; simp at hslen; omega
      | cons a s1 =>
          cases s1 with
          | nil => rw [hsl] at hslen; simp at hslen; omega
          | cons b t => exact ⟨a, b, t, rfl⟩
    have hnd_enum : (competitors pop sample).enum.Nodup :=
      (List.nodup_enum_map_fst _).of_map _
    have hnds : (a :: b :: t).Nodup := by
      rw [← hst]
      exact hperm.nodup_iff.mpr hnd_enum
    have hmem_a : a ∈ (competitors pop sample).enum := by
      apply hperm.mem_iff.mp
      rw [hst]
      exact List.mem_cons_self _ _
    have hmem_b : b ∈ (competitors pop sample).enum := by
      apply hperm.mem_iff.mp
      rw [hst]
      exact List.mem_cons_of_mem _ (List.mem_cons_self _ _)
    have hga : (competitors pop sample).get? a.1 = some a.2 := by
      have := List.mem_enum_iff_get?.mp hmem_a
      simpa using this
    have hgb : (competitors pop sample).get? b.1 = some b.2 := by
      have := List.mem_enum_iff_get?.mp hmem_b
      simpa using this
    have hia : a.1 < k := by
      rcases List.get?_eq_some.mp hga with ⟨h, _⟩
      omega
    have hib : b.1 < k := by
      rcases List.get?_eq_some.mp hgb with ⟨h, _⟩
      omega
    have hda : (competitors pop sample).getD a.1 0 = a.2 := getD_of_get? hga
    have hdb : (competitors pop sample).getD b.1 0 = b.2 := getD_of_get? hgb
    have hne : a.1 ≠ b.1 := by
      intro he
      have hab : a = b := by
        rw [he] at hga
        rw [hga] at hgb
        have h2 : a.2 = b.2 := by injection hgb
        exact Prod.ext he h2
      rw [hab] at hnds
      exact (List.nodup_cons.mp hnds).1 (List.mem_cons_self _ _)
    have hrel : tOrd a b := by
      have := hst ▸ hsorted
      exact List.rel_of_sorted_cons this b (List.mem_cons_self _ _)
    refine ⟨a.1, b.1, hia, hib, hne, ?_, ?_, ?_, ?_⟩
    · rw [tournament_selection, if_pos ⟨h2, hk, hs, hnd, hb⟩, hst, hda, hdb]
    · rw [hda, hdb]
      exact tOrd_snd_le hrel
    · intro m hm
      rw [hda]
      have hgm : (competitors pop sample).get? m = some ((competitors pop sample).getD m 0) := by
        rcases List.get?_eq_some.mp
          (List.get?_eq_get (show m < (competitors pop sample).length by omega)) with _
        rw [List.get?_eq_get (show m < (competitors pop sample).length by omega)]
        rw [getD_of_get? (List.get?_eq_get (show m < (competitors pop sample).length by omega))]
      have hmem_m : (m, (competitors pop sample).getD m 0) ∈ (competitors pop sample).enum :=
        List.mk_mem_enum_iff_get?.mpr (by simpa using hgm)
      have hmem_ms : (m, (competitors pop sample).getD m 0) ∈ a :: b :: t := by
        rw [← hst]
        exact hperm.mem_iff.mpr hmem_m
      rcases List.mem_cons.mp hmem_ms with he | hrest
      · rw [← he]
      · have := hst ▸ hsorted
        exact tOrd_snd_le (List.rel_of_sorted_cons this _ hrest)
    · intro heq
      rw [hda, hdb] at heq
      rcases hrel with h | ⟨_, hle⟩
      · rw [heq] at h
        exact absurd h (lt_irrefl _)
      · omega
  · intro hlt
    rw [tournament_selection, if_neg]
    rintro ⟨hA, hB, -⟩
    omega

/-- Witness for C5 at a concrete population and sample. -/
theorem tournament_selection_spec_witness :
    (∃ i j, i < 2 ∧ j < 2 ∧ i ≠ j ∧
      tournament_selection [1/2, 1/4, 3/4] 2 [0, 2] =
        some ((competitors [1/2, 1/4, 3/4] [0, 2]).getD i 0,
              (competitors [1/2, 1/4, 3/4] [0, 2]).getD j 0) ∧
      (competitors [1/2, 1/4, 3/4] [0, 2]).getD j 0 ≤
        (competitors [1/2, 1/4, 3/4] [0, 2]).getD i 0 ∧
      (∀ m, m < 2 → (competitors [1/2, 1/4, 3/4] [0, 2]).getD m 0 ≤
        (competitors [1/2, 1/4, 3/4] [0, 2]).getD i 0) ∧
      ((competitors [1/2, 1/4, 3/4] [0, 2]).getD i 0 =
        (competitors [1/2, 1/4, 3/4] [0, 2]).getD j 0 → i < j)) ∧
    tournament_selection [1/2] 2 [0] = none :=
  ⟨(tournament_selection_spec [1/2, 1/4, 3/4] 2 [0, 2]).1 (by norm_num) (by norm_num) rfl
    (by decide) (by decide),
   (tournament_selection_spec [1/2] 2 [0]).2 (by norm_num)⟩

/-- C6 counterexample: at population size 30 with the configured
`ELITE_PERCENT = 0.05`, the code's elite count is
`max(1, int(30 * 0.05)) = 1`, not `ceil(30 * 0.05) = 2` as the claim
states. -/
theorem elite_count_not_ceil :
    elite_count 30 = 1 ∧ Nat.ceil ((30 : ℚ) * ELITE_PERCENT) = 2 ∧
    elite_count 30 ≠ Nat.ceil ((30 : ℚ) * ELITE_PERCENT) := by
  have hf : Nat.floor (((30 : ℕ) : ℚ) * ELITE_PERCENT) = 1 := by
    have h30 : ((30 : ℕ) : ℚ) * ELITE_PERCENT = 3/2 := by norm_num [ELITE_PERCENT]
    rw [h30, Nat.floor_eq_iff (by norm_num)]
    norm_num
  have hcc : Nat.ceil ((30 : ℚ) * ELITE_PERCENT) = 2 := by
    have h30 : (30 : ℚ) * ELITE_PERCENT = 3/2 := by norm_num [ELITE_PERCENT]
    rw [h30, Nat.ceil_eq_iff (by norm_num)]
    norm_num
  refine ⟨?_, hcc, ?_⟩
  · rw [elite_count, hf]
    norm_num
  · rw [elite_count, hf, hcc]
    norm_num

/-- C6 (amended): in a non-empty population the number of elites equals
`max(1, floor(population_size * elite_percent))`, is at least 1, and
the elites are exactly the top-fitness individuals: elites and
non-elites together are a permutation of the population and every
non-elite's fitness is at most every elite's. -/
theorem elite_selection_spec (pop : List ℚ) (hp : pop ≠ []) :
    elite_count pop.length = max 1 (Nat.floor ((pop.length : ℚ) * ELITE_PERCENT)) ∧
    1 ≤ elite_count pop.length ∧
    (elites pop).length = elite_count pop.length ∧
    (elites pop ++ nonElites pop).Perm pop ∧
    ∀ e ∈ elites pop, ∀ x ∈ nonElites pop, x ≤ e := by
  have hn : 1 ≤ pop.length := List.length_pos.mpr hp
  have hfl : Nat.floor ((pop.length : ℚ) * ELITE_PERCENT) ≤ pop.length := by
    calc Nat.floor ((pop.length : ℚ) * ELITE_PERCENT) ≤ Nat.floor ((pop.length : ℚ)) :=
          Nat.floor_mono (mul_le_of_le_one_right (by positivity) (by norm_num [ELITE_PERCENT]))
      _ = pop.length := Nat.floor_natCast _
  have hc : elite_count pop.length ≤ pop.length := max_le hn hfl
  refine ⟨rfl, le_max_left _ _, ?_, ?_, ?_⟩
  · rw [elites, List.length_take, sortByFitness_length]
    omega
  · rw [elites, nonElites, List.take_append_drop]
    exact sortByFitness_perm pop
  · intro e he x hx
    rw [elites, sortByFitness, ← List.map_take] at he
    rw [nonElites, sortByFitness, ← List.map_drop] at hx
    obtain ⟨p, hp1, hp2⟩ := List.mem_map.mp he
    obtain ⟨q, hq1, hq2⟩ := List.mem_map.mp hx
    have hsorted := List.sorted_insertionSort tOrd pop.enum
    have hsplit := List.take_append_drop (elite_count pop.length)
      (List.insertionSort tOrd pop.enum)
    have hpw : List.Pairwise tOrd
        (List.take (elite_count pop.length) (List.insertionSort tOrd pop.enum) ++
         List.drop (elite_count pop.length) (List.insertionSort tOrd pop.enum)) := by
      rw [hsplit]
      exact hsorted
    have hrel : tOrd p q := (List.pairwise_append.mp hpw).2.2 p hp1 q hq1
    rw [← hp2, ← hq2]
    exact tOrd_snd_le hrel

/-- Witness for C6 (amended) at a concrete two-member population. -/
theorem elite_selection_spec_witness :
    elite_count ([3/10, 7/10] : List ℚ).length =
      max 1 (Nat.floor ((([3/10, 7/10] : List ℚ).length : ℚ) * ELITE_PERCENT)) ∧
    1 ≤ elite_count ([3/10, 7/10] : List ℚ).length ∧
    (elites [3/10, 7/10]).length = elite_count ([3/10, 7/10] : List ℚ).length ∧
    (elites [3/10, 7/10] ++ nonElites [3/10, 7/10]).Perm [3/10, 7/10] ∧
    ∀ e ∈ elites [3/10, 7/10], ∀ x ∈ nonElites [3/10, 7/10], x ≤ e :=
  elite_selection_spec [3/10, 7/10] (by simp)

theorem replayStep_inv (tip : String) (tps : Option PyVal) (resp : ℕ → Option Response)
    (htip : tip ≠ "") (s : ReplayState) (v : PyVal)
    (h1 : s.packet.src_ip = SOURCE_IP)
    (h2 : ∀ p ∈ s.sends, p.src_ip = SOURCE_IP ∧ p.dst_ip = tip) :
    ∀ s2, replayStep tip tps resp s v = some s2 →
      s2.packet.src_ip = SOURCE_IP ∧
      ∀ p ∈ s2.sends, p.src_ip = SOURCE_IP ∧ p.dst_ip = tip := by
  intro s2 hstep
  cases v with
  | pstr s' => simp [replayStep] at hstep
  | pint n => simp [replayStep] at hstep
  | pfloat q => simp [replayStep] at hstep
  | pnone => simp [replayStep] at hstep
  | ptup l =>
    rcases l with _ | ⟨tag, _ | ⟨param, _ | ⟨x, l4⟩⟩⟩
    · simp [replayStep] at hstep
    · simp [replayStep] at hstep
    · -- the `(tag, param)` case
      cases tag with
      | pstr t =>
          simp only [replayStep] at hstep
          split_ifs at hstep with hf hp hip hsend
          · simp only [Option.some.injEq] at hstep
            subst hstep
            exact ⟨h1, h2⟩
          · rcases param with _ | _ | _ | _ | pl
            · simp at hstep
            · simp at hstep
            · simp at hstep
            · simp at hstep
            · rcases pl with _ | ⟨pa, _ | ⟨pb, _ | ⟨pc, pl4⟩⟩⟩
              · simp at hstep
              · simp at hstep
              · simp only [Option.some.injEq] at hstep
                subst hstep
                exact ⟨h1, h2⟩
              · simp at hstep
          · rcases param with _ | _ | _ | _ | pl
            · simp at hstep
            · simp at hstep
            · simp at hstep
            · simp at hstep
            · rcases pl with _ | ⟨pa, _ | ⟨pb, _ | ⟨pc, pl4⟩⟩⟩
              · simp at hstep
              · simp at hstep
              · simp only [Option.some.injEq] at hstep
                subst hstep
                exact ⟨rfl, h2⟩
              · simp at hstep
          · revert hstep
            rcases hdp : s.packet.dst_port with _ | _ | _ | _ | pl <;> intro hstep
            · simp only [Option.some.injEq] at hstep
              subst hstep
              refine ⟨h1, ?_⟩
              intro p hp
              rcases List.mem_append.mp hp with hold | hnew
              · exact h2 p hold
              · simp only [List.mem_singleton] at hnew
                subst hnew
                exact ⟨h1, by simp [if_neg htip]⟩
            · simp only [Option.some.injEq] at hstep
              subst hstep
              refine ⟨h1, ?_⟩
              intro p hp
              rcases List.mem_append.mp hp with hold | hnew
              · exact h2 p hold
              · simp only [List.mem_singleton] at hnew
                subst hnew
                exact ⟨h1, by simp [if_neg htip]⟩
            · simp only [Option.some.injEq] at hstep
              subst hstep
              refine ⟨h1, ?_⟩
              intro p hp
              rcases List.mem_append.mp hp with hold | hnew
              · exact h2 p hold
              · simp only [List.mem_singleton] at hnew
                subst hnew
                exact ⟨h1, by simp [if_neg htip]⟩
            · simp at hstep
            · simp only [Option.some.injEq] at hstep
              subst hstep
              refine ⟨h1, ?_⟩
              intro p hp
              rcases List.mem_append.mp hp with hold | hnew
              · exact h2 p hold
              · simp only [List.mem_singleton] at hnew
                subst hnew
                exact ⟨h1, by simp [if_neg htip]⟩
          · simp only [Option.some.injEq] at hstep
            subst hstep
            exact ⟨h1, h2⟩
      | pint n =>
          simp only [replayStep, Option.some.injEq] at hstep
          subst hstep
          exact ⟨h1, h2⟩
      | pfloat q =>
          simp only [replayStep, Option.some.injEq] at hstep
          subst hstep
          exact ⟨h1, h2⟩
      | pnone =>
          simp only [replayStep, Option.some.injEq] at hstep
          subst hstep
          exact ⟨h1, h2⟩
      | ptup tl =>
          simp only [replayStep, Option.some.injEq] at hstep
          subst hstep
          exact ⟨h1, h2⟩
    · simp [replayStep] at hstep

theorem replayRun_inv (tip : String) (tps : Option PyVal) (resp : ℕ → Option Response)
    (htip : tip ≠ "") :
    ∀ (instrs : List PyVal) (s : ReplayState),
      s.packet.src_ip = SOURCE_IP →
      (∀ p ∈ s.sends, p.src_ip = SOURCE_IP ∧ p.dst_ip = tip) →
      ∀ st, replayRun tip tps resp instrs s = some st →
        st.packet.src_ip = SOURCE_IP ∧
        ∀ p ∈ st.sends, p.src_ip = SOURCE_IP ∧ p.dst_ip = tip := by
  intro instrs
  induction instrs with
  | nil =>
      intro s h1 h2 st hrun
      simp only [replayRun, Option.some.injEq] at hrun
      subst hrun
      exact ⟨h1, h2⟩
  | cons v vs ih =>
      intro s h1 h2 st hrun
      cases hs : replayStep tip tps resp s v with
      | none => simp [replayRun, hs] at hrun
      | some s2 =>
          simp only [replayRun, hs] at hrun
          obtain ⟨g1, g2⟩ := replayStep_inv tip tps resp htip s v h1 h2 s2 hs
          exact ih s2 g1 g2 st hrun

/-- C7 counterexample: a genome file whose second line is literally
`("send_probe", None)` loads fine, but the replay loop dispatches on
the tag `"send_packet"`, so `"send_probe"` matches no branch: no probe
is ever sent against the SYN+ACK-answering target and the summary tally
is all zeros, not `open: 1`. -/
theorem replay_send_probe_counterexample :
    load_individual [instrLine (Instruction.set_flags "S"), sendProbeLine] =
      some [PyVal.ptup [PyVal.pstr "set_flags", PyVal.pstr "S"],
            PyVal.ptup [PyVal.pstr "send_probe", PyVal.pnone]] ∧
    ∃ st, replayRun "192.168.56.102" none (fun _ => some ⟨true, "SA"⟩)
        [PyVal.ptup [PyVal.pstr "set_flags", PyVal.pstr "S"],
         PyVal.ptup [PyVal.pstr "send_probe", PyVal.pnone]] initReplayState = some st ∧
      st.results = ⟨0, 0, 0, 0⟩ ∧ st.sends = [] := by
  have hline2 : parseLine sendProbeLine =
      some (PyVal.ptup [PyVal.pstr "send_probe", PyVal.pnone]) := by
    have hmain : parseVal 32
        (pyReprChars (PyVal.ptup [PyVal.pstr "send_probe", PyVal.pnone]) ++ []) =
        some (PyVal.ptup [PyVal.pstr "send_probe", PyVal.pnone], []) :=
      parses_pair _ _ 0 0
        (fun f r _ => parses_pstr "send_probe" (by decide) f r)
        (fun f r _ => parses_pnone f r) 28 [] numSafe_nil
    rw [List.append_nil] at hmain
    unfold parseLine sendProbeLine
    rw [show (String.mk (pyReprChars (PyVal.ptup [PyVal.pstr "send_probe", PyVal.pnone]))).data =
      pyReprChars (PyVal.ptup [PyVal.pstr "send_probe", PyVal.pnone]) from rfl, hmain]
  constructor
  · simp only [load_individual, parseLine_instr (Instruction.set_flags "S") (by decide), hline2]
    rfl
  · exact ⟨_, rfl, rfl, rfl⟩

/-- C7 (amended): replaying the two-line genome file that
`save_individual` actually writes for `[("set_flags","S"),
("send_packet", None)]` against a target answering SYN+ACK classifies
the single probe as `open`, and the summary shows `open: 1` with all
other counts 0. -/
theorem replay_syn_ack_open :
    load_individual (save_individual [Instruction.set_flags "S", Instruction.send_packet]) =
      some [PyVal.ptup [PyVal.pstr "set_flags", PyVal.pstr "S"],
            PyVal.ptup [PyVal.pstr "send_packet", PyVal.pnone]] ∧
    ∃ st, replayRun "192.168.56.102" none (fun _ => some ⟨true, "SA"⟩)
        [PyVal.ptup [PyVal.pstr "set_flags", PyVal.pstr "S"],
         PyVal.ptup [PyVal.pstr "send_packet", PyVal.pnone]] initReplayState = some st ∧
      st.results = ⟨1, 0, 0, 0⟩ := by
  constructor
  · simp only [save_individual, List.map_cons, List.map_nil, load_individual,
      parseLine_instr (Instruction.set_flags "S") (by decide),
      parseLine_instr Instruction.send_packet (by decide)]
    rfl
  · exact ⟨_, rfl, rfl⟩

/-- C8: persisting a genome in the one-instruction-per-line `repr`
format and reloading it with the replay loader yields exactly the
original instructions' values in order (and decoding those values gives
back the original genome), for every instruction whose parameters come
from the vocabulary. -/
theorem genome_round_trip (genome : List Instruction) (h : ∀ i ∈ genome, GoodInstr i) :
    load_individual (save_individual genome) = some (genome.map toPyVal) ∧
    decodeGenome (genome.map toPyVal) = some genome := by
  constructor
  · have haux : ∀ (g : List Instruction), (∀ i ∈ g, GoodInstr i) →
        load_individual (save_individual g) = some (g.map toPyVal) := by
      intro g
      induction g with
      | nil => intro _; rfl
      | cons i g ih =>
          intro hg
          have hi := hg i (List.mem_cons_self _ _)
          have hrest := ih fun j hj => hg j (List.mem_cons_of_mem _ hj)
          simp only [save_individual, List.map_cons] at hrest ⊢
          simp only [load_individual, parseLine_instr i hi, hrest, List.map_cons]
    exact haux genome h
  · have haux : ∀ (g : List Instruction), decodeGenome (g.map toPyVal) = some g := by
      intro g
      induction g with
      | nil => rfl
      | cons i g ih => simp only [List.map_cons, decodeGenome, fromPyVal_toPyVal, ih]
    exact haux genome

/-- Witness for C8: a genome exercising all nine instruction kinds
round-trips through the textual format. -/
theorem genome_round_trip_witness :
    load_individual (save_individual
      [Instruction.set_flags "S", Instruction.set_ips "192.168.1.7" "10.0.0.5",
       Instruction.set_ports 1024 80, Instruction.set_ttl 64,
       Instruction.set_window_size 512, Instruction.set_payload_length 300,
       Instruction.set_ip_flags "DF", Instruction.set_delay 1,
       Instruction.send_packet]) =
      some ([Instruction.set_flags "S", Instruction.set_ips "192.168.1.7" "10.0.0.5",
       Instruction.set_ports 1024 80, Instruction.set_ttl 64,
       Instruction.set_window_size 512, Instruction.set_payload_length 300,
       Instruction.set_ip_flags "DF", Instruction.set_delay 1,
       Instruction.send_packet].map toPyVal) ∧
    decodeGenome ([Instruction.set_flags "S", Instruction.set_ips "192.168.1.7" "10.0.0.5",
       Instruction.set_ports 1024 80, Instruction.set_ttl 64,
       Instruction.set_window_size 512, Instruction.set_payload_length 300,
       Instruction.set_ip_flags "DF", Instruction.set_delay 1,
       Instruction.send_packet].map toPyVal) =
      some [Instruction.set_flags "S", Instruction.set_ips "192.168.1.7" "10.0.0.5",
       Instruction.set_ports 1024 80, Instruction.set_ttl 64,
       Instruction.set_window_size 512, Instruction.set_payload_length 300,
       Instruction.set_ip_flags "DF", Instruction.set_delay 1,
       Instruction.send_packet] :=
  genome_round_trip _ (by
    intro i hi
    fin_cases hi <;> decide)

/-- C10: during replay every `set_ips` instruction discards both
persisted addresses (the packet's source becomes the configured
`SOURCE_IP` and its destination the caller-supplied target, whatever
the stored pair was), and in any completed replay against a non-empty
target address every sent probe carries `SOURCE_IP` as source and the
caller-supplied target as destination — the addresses stored in the
genome file never reach a probe. -/
theorem replay_addresses_overridden (instrs : List PyVal) (tip : String)
    (tps : Option PyVal) (resp : ℕ → Option Response) (htip : tip ≠ "") :
    (∀ (x y : PyVal) (s : ReplayState),
      replayStep tip tps resp s (PyVal.ptup [PyVal.pstr "set_ips", PyVal.ptup [x, y]]) =
        some { s with packet := { s.packet with src_ip := SOURCE_IP, dst_ip := tip } }) ∧
    (∀ st, replayRun tip tps resp instrs initReplayState = some st →
      st.packet.src_ip = SOURCE_IP ∧
      ∀ p ∈ st.sends, p.src_ip = SOURCE_IP ∧ p.dst_ip = tip) := by
  constructor
  · intro x y s
    rfl
  · intro st hrun
    exact replayRun_inv tip tps resp htip instrs initReplayState rfl
      (by intro p hp; simp [initReplayState] at hp) st hrun

/-- Witness for C10: a file whose `set_ips` line stores foreign
addresses still probes the caller's target from `SOURCE_IP`. -/
theorem replay_addresses_overridden_witness :
    (replayStep "10.0.0.9" none (fun _ => none) initReplayState
        (PyVal.ptup [PyVal.pstr "set_ips",
          PyVal.ptup [PyVal.pstr "1.2.3.4", PyVal.pstr "5.6.7.8"]]) =
      some { initReplayState with
        packet := { initReplayState.packet with src_ip := SOURCE_IP, dst_ip := "10.0.0.9" } }) ∧
    ∀ st, replayRun "10.0.0.9" none (fun _ => none)
        [PyVal.ptup [PyVal.pstr "set_ips",
           PyVal.ptup [PyVal.pstr "1.2.3.4", PyVal.pstr "5.6.7.8"]],
         PyVal.ptup [PyVal.pstr "send_packet", PyVal.pnone]] initReplayState = some st →
      st.packet.src_ip = SOURCE_IP ∧
      ∀ p ∈ st.sends, p.src_ip = SOURCE_IP ∧ p.dst_ip = "10.0.0.9" :=
  ⟨(replay_addresses_overridden [] "10.0.0.9" none (fun _ => none) (by decide)).1
      (PyVal.pstr "1.2.3.4") (PyVal.pstr "5.6.7.8") initReplayState,
   (replay_addresses_overridden
      [PyVal.ptup [PyVal.pstr "set_ips",
         PyVal.ptup [PyVal.pstr "1.2.3.4", PyVal.pstr "5.6.7.8"]],
       PyVal.ptup [PyVal.pstr "send_packet", PyVal.pnone]] "10.0.0.9" none (fun _ => none)
      (by decide)).2⟩

end Popos
